import Mathlib

/-!
Verification development for the MaxPreps statistics scraper
(`maxpreps_scraper.py`).  The core logic — header normalization, table
classification by header heuristics, per-category merging with an outer
join, row filtering during extraction, and the per-team orchestration
threshold — is shallowly embedded below.  Strings are modelled as lists
of character codes (`PyStr`); Python `str.strip` / `str.upper` /
`str.lower` are modelled over ASCII codes; pandas `DataFrame`s are
modelled as a rectangular column-list / row-list structure with `none`
cells standing for NaN; code that raises an exception is modelled with
`Option`.
-/

/-- A Python string, modelled as its list of character codes. -/
abbrev PyStr := List Nat

/-- Build a `PyStr` from a Lean string literal. -/
def pys (s : String) : PyStr := s.data.map Char.toNat

/-- Whitespace test used by Python `str.strip` (ASCII whitespace codes). -/
def wsB (c : Nat) : Bool :=
  decide (c = 32 ∨ c = 9 ∨ c = 10 ∨ c = 11 ∨ c = 12 ∨ c = 13)

/-- ASCII uppercasing of one character code, as in Python `str.upper`. -/
def upperChar (c : Nat) : Nat := if 97 ≤ c ∧ c ≤ 122 then c - 32 else c

/-- ASCII lowercasing of one character code, as in Python `str.lower`. -/
def lowerChar (c : Nat) : Nat := if 65 ≤ c ∧ c ≤ 90 then c + 32 else c

/-- Python `s.upper()` over the ASCII model. -/
def pyUpper (l : PyStr) : PyStr := l.map upperChar

/-- Python `s.lower()` over the ASCII model. -/
def pyLower (l : PyStr) : PyStr := l.map lowerChar

/-- Python `s.strip()`: drop whitespace from both ends. -/
def pyStrip (l : PyStr) : PyStr :=
  ((l.dropWhile wsB).reverse.dropWhile wsB).reverse

/-- Python `header.strip().upper()`, the pre-normalization applied to every
header before classification and merging. -/
def stripUpper (h : PyStr) : PyStr := pyUpper (pyStrip h)

/-- The fixed synonym table of `_normalize_headers` (`header_map`). -/
def headerMap : List (PyStr × PyStr) :=
  [ (pys "BATTING AVG", pys "AVG"), (pys "BA", pys "AVG"),
    (pys "RUNS BATTED IN", pys "RBI"), (pys "RBI", pys "RBI"),
    (pys "RUNS SCORED", pys "R"), (pys "R", pys "R"),
    (pys "AT BATS", pys "AB"), (pys "AB", pys "AB"),
    (pys "HITS", pys "H"), (pys "H", pys "H"),
    (pys "DOUBLES", pys "2B"), (pys "2B", pys "2B"),
    (pys "TRIPLES", pys "3B"), (pys "3B", pys "3B"),
    (pys "HOME RUNS", pys "HR"), (pys "HR", pys "HR"),
    (pys "WALKS", pys "BB"), (pys "BB", pys "BB"),
    (pys "STRIKEOUTS", pys "K"), (pys "K", pys "K"),
    (pys "OPPONENT AVG", pys "OBA"), (pys "OPP BA", pys "OBA"),
    (pys "OPP AVG", pys "OBA"),
    (pys "ON BASE %", pys "OBP"), (pys "ON BASE PCT", pys "OBP"),
    (pys "WILD PITCHES", pys "WP"),
    (pys "HIT BATTERS", pys "HBP"),
    (pys "SACRIFICE FLIES", pys "SF"),
    (pys "SACRIFICE HITS", pys "SH/B"),
    (pys "PITCH COUNT", pys "#P"), (pys "PITCHES", pys "#P"),
    (pys "BALKS", pys "BK"),
    (pys "PICKOFFS", pys "PO"),
    (pys "STOLEN BASES AGAINST", pys "SB"),
    (pys "EARNED RUN AVERAGE", pys "ERA"),
    (pys "INNINGS PITCHED", pys "IP"),
    (pys "FIELDING PERCENTAGE", pys "FLD%"),
    (pys "PUTOUTS", pys "PO"),
    (pys "ASSISTS", pys "A"),
    (pys "ERRORS", pys "E"),
    (pys "DOUBLE PLAYS", pys "DP"),
    (pys "STOLEN BASES", pys "SB"),
    (pys "CAUGHT STEALING", pys "CS"),
    (pys "GAMES PLAYED", pys "GP"),
    (pys "GAMES STARTED", pys "GS"),
    (pys "APPEARANCES", pys "APP") ]

/-- Python `dict.get(k, d)` over an association list with unique keys. -/
def lookupD (m : List (PyStr × PyStr)) (k d : PyStr) : PyStr :=
  match m with
  | [] => d
  | (a, b) :: rest => if a = k then b else lookupD rest k d

/-- Normalization of one header: `header_map.get(h.strip().upper(),
h.strip().upper())`, the body of the loop in `_normalize_headers`. -/
def normalizeHeader (h : PyStr) : PyStr :=
  lookupD headerMap (stripUpper h) (stripUpper h)

/-- `_normalize_headers`: normalize a list of headers. -/
def normalizeHeaders (hs : List PyStr) : List PyStr := hs.map normalizeHeader

/-- The four statistical table categories. -/
inductive TableType where
  | batting | pitching | fielding | baserunning
deriving DecidableEq

/-- Indicator set `pitching_basic` of `_determine_table_type`. -/
def pitchingBasic : List PyStr :=
  [pys "ERA", pys "W", pys "L", pys "W%", pys "APP"]

/-- Indicator set `pitching_advanced`. -/
def pitchingAdvanced : List PyStr :=
  [pys "IP", pys "H", pys "R", pys "ER", pys "BB", pys "SO"]

/-- Indicator set `pitching_additional`. -/
def pitchingAdditional : List PyStr :=
  [pys "OBA", pys "WP", pys "HBP", pys "BK"]

/-- Indicator set `batting_required`. -/
def battingRequired : List PyStr :=
  [pys "AVG", pys "AB", pys "H", pys "R", pys "RBI"]

/-- Indicator set `batting_additional`. -/
def battingAdditional : List PyStr :=
  [pys "2B", pys "3B", pys "HR", pys "BB", pys "K", pys "HBP", pys "SF",
   pys "SH", pys "ROE", pys "FC", pys "LOB", pys "OBP", pys "SLG", pys "OPS"]

/-- Indicator set `fielding_required`. -/
def fieldingRequired : List PyStr := [pys "FPCT", pys "TC", pys "FLD%"]

/-- Indicator set `fielding_additional`. -/
def fieldingAdditional : List PyStr := [pys "PO", pys "A", pys "E", pys "DP"]

/-- Indicator set `baserunning_required`. -/
def baserunningRequired : List PyStr := [pys "SB", pys "CS", pys "SBA"]

/-- Python `len(ind_set & set(headers))`: the number of indicators from
`ind` (a duplicate-free list) present among `headers`. -/
def interCount (ind headers : List PyStr) : Nat :=
  (ind.filter (fun x => decide (x ∈ headers))).length

/-- `_determine_table_type` on a DataFrame's column list: strip and
uppercase every column name, then test the category predicates in the
fixed order pitching, fielding, baserunning, batting, returning the first
match and `none` when nothing matches (or when there are no headers). -/
def determineTableType (cols : List PyStr) : Option TableType :=
  let headers := cols.map stripUpper
  if headers.isEmpty then none
  else if 3 ≤ interCount pitchingBasic headers ∨
          3 ≤ interCount pitchingAdvanced headers ∨
          2 ≤ interCount pitchingAdditional headers then some .pitching
  else if (∃ req ∈ fieldingRequired, req ∈ headers) ∧
          (∃ add ∈ fieldingAdditional, add ∈ headers) then some .fielding
  else if ∃ req ∈ baserunningRequired, req ∈ headers then some .baserunning
  else if 2 ≤ interCount battingRequired headers ∨
          2 ≤ interCount battingAdditional headers then some .batting
  else none

/-- A pandas DataFrame: an ordered list of column labels and a list of
rows; a `none` cell stands for NaN (as introduced by an outer join or by
ragged-row padding). -/
structure DataFrame where
  cols : List PyStr
  rows : List (List (Option PyStr))
deriving DecidableEq

/-- pandas `df.empty`: true when either axis has length zero. -/
def DataFrame.isEmpty (df : DataFrame) : Bool :=
  df.rows.isEmpty || df.cols.isEmpty

/-- A DataFrame is rectangular: every row has one cell per column.  Real
pandas DataFrames always satisfy this by construction. -/
def DataFrame.aligned (df : DataFrame) : Prop :=
  ∀ r ∈ df.rows, r.length = df.cols.length

instance (df : DataFrame) : Decidable df.aligned := by
  unfold DataFrame.aligned
  infer_instance

/-- Index of the first occurrence of a column label, pandas-style. -/
def colIdx (l : List PyStr) (k : PyStr) : Option Nat :=
  match l with
  | [] => none
  | c :: cs => if c = k then some 0 else (colIdx cs k).map (· + 1)

/-- Cell at a position of a row (`none` when out of range). -/
def cellVal (r : List (Option PyStr)) (n : Nat) : Option PyStr :=
  match r, n with
  | [], _ => none
  | c :: _, 0 => c
  | _ :: cs, n + 1 => cellVal cs n

/-- Replace the cell at a position of a row (no-op when out of range). -/
def updAt (r : List (Option PyStr)) (n : Nat) (v : Option PyStr) :
    List (Option PyStr) :=
  match r, n with
  | [], _ => []
  | _ :: cs, 0 => v :: cs
  | c :: cs, n + 1 => c :: updAt cs n v

/-- The value a row holds in a named column of a DataFrame. -/
def cellAt (df : DataFrame) (r : List (Option PyStr)) (c : PyStr) :
    Option PyStr :=
  match colIdx df.cols c with
  | some i => cellVal r i
  | none => none

/-- The merge key `key_columns = ['#', 'ATHLETE NAME']` of
`_merge_tables_by_type`. -/
def keyColumns : List PyStr := [pys "#", pys "ATHLETE NAME"]

/-- `right_columns`: the columns of a table other than the join keys. -/
def valueCols (df : DataFrame) : List PyStr :=
  df.cols.filter (fun c => decide (c ∉ keyColumns))

/-- The tuple of join-key values of one row. -/
def keyOf (df : DataFrame) (r : List (Option PyStr)) : List (Option PyStr) :=
  keyColumns.map (fun k => cellAt df r k)

/-- The non-key columns of the left frame that collide with non-key
columns of the right frame; pandas renames both sides of a collision. -/
def overlapCols (left right : DataFrame) : List PyStr :=
  left.cols.filter (fun c => decide (c ∈ valueCols right))

/-- The left-frame column labels after the pandas `_x` collision
suffix. -/
def mergedColsL (left right : DataFrame) : List PyStr :=
  left.cols.map (fun c =>
    if c ∈ overlapCols left right then c ++ pys "_x" else c)

/-- The right-frame value-column labels after the pandas `_y` collision
suffix. -/
def mergedColsR (left right : DataFrame) : List PyStr :=
  (valueCols right).map (fun c =>
    if c ∈ overlapCols left right then c ++ pys "_y" else c)

/-- The key-matching right rows for one left row. -/
def matchesOf (left right : DataFrame) (lr : List (Option PyStr)) :
    List (List (Option PyStr)) :=
  right.rows.filter (fun rr => decide (keyOf right rr = keyOf left lr))

/-- The outer-join rows contributed by the left frame: each left row
paired with every key-matching right row, or NaN-padded on the right
when no right row matches. -/
def matchedRows (left right : DataFrame) : List (List (Option PyStr)) :=
  left.rows.flatMap (fun lr =>
    if (matchesOf left right lr).isEmpty then
      [lr ++ List.replicate (valueCols right).length none]
    else (matchesOf left right lr).map
      (fun rr => lr ++ (valueCols right).map (fun c => cellAt right rr c)))

/-- The outer-join rows contributed by right rows whose key matches no
left row: key cells carried over, all other left columns NaN. -/
def rightOnlyRows (left right : DataFrame) : List (List (Option PyStr)) :=
  (right.rows.filter (fun rr =>
      !left.rows.any (fun lr => decide (keyOf left lr = keyOf right rr)))).map
    (fun rr =>
      left.cols.map (fun c =>
        if c ∈ keyColumns then cellAt right rr c else none) ++
      (valueCols right).map (fun c => cellAt right rr c))

/-- pandas `pd.merge(left, right[key_columns + right_columns],
on=key_columns, how='outer')`.  Returns `none` when a key column is
missing from either side (pandas raises `KeyError`).  Overlapping
non-key column labels receive the pandas `_x` / `_y` suffixes.  Result
rows: every left row paired with each key-matching right row (NaN-padded
when unmatched), followed by the unmatched right rows NaN-padded on the
left side. -/
def mergeOuter (left right : DataFrame) : Option DataFrame :=
  if keyColumns.all (fun k => decide (k ∈ left.cols)) &&
     keyColumns.all (fun k => decide (k ∈ right.cols)) then
    some { cols := mergedColsL left right ++ mergedColsR left right,
           rows := matchedRows left right ++ rightOnlyRows left right }
  else none

/-- One iteration of the merge loop of `_merge_tables_by_type`: skip the
table when it has no non-key columns, otherwise select
`df[key_columns + right_columns]` (raising, i.e. `none`, when a key
column is absent) and outer-merge it into the accumulator. -/
def mergeStep (acc : Option DataFrame) (df : DataFrame) : Option DataFrame :=
  match acc with
  | none => none
  | some left =>
    if (valueCols df).isEmpty then some left
    else if keyColumns.all (fun k => decide (k ∈ df.cols)) then
      mergeOuter left df
    else none

/-- The merge loop over one category group: start from the first table
and fold the remaining tables in. -/
def mergeGroup : List DataFrame → Option DataFrame
  | [] => none
  | d :: rest => rest.foldl mergeStep (some d)

/-- pandas column assignment `df[c] = v` with a scalar: overwrite the
column when present, otherwise append it, giving every row the value. -/
def setCol (df : DataFrame) (c : PyStr) (v : PyStr) : DataFrame :=
  match colIdx df.cols c with
  | some i => { cols := df.cols, rows := df.rows.map (fun r => updAt r i (some v)) }
  | none => { cols := df.cols ++ [c], rows := df.rows.map (fun r => r ++ [some v]) }

/-- The three constant team columns injected after merging. -/
def injectTeamCols (df : DataFrame) (teamName teamUrl cityState : PyStr) :
    DataFrame :=
  setCol (setCol (setCol df (pys "TEAM") teamName)
    (pys "CITY_STATE") cityState) (pys "STATS_URL") teamUrl

/-- The grouping pass of `_merge_tables_by_type`: keep the non-empty
tables the classifier assigns to `cat`, replacing their column labels by
the stripped-uppercased forms (`df.columns = [col.strip().upper() ...]`). -/
def groupTables (tables : List DataFrame) (cat : TableType) : List DataFrame :=
  (tables.filter (fun df =>
      !df.isEmpty && decide (determineTableType df.cols = some cat))).map
    (fun df => { df with cols := df.cols.map stripUpper })

/-- The per-category loop of `_merge_tables_by_type`, in the dict
insertion order of `table_groups`; a raised `KeyError` in any category
aborts the whole call (`none`). -/
def mergeCats (tables : List DataFrame) (teamName teamUrl cityState : PyStr) :
    List TableType → Option (List (TableType × DataFrame))
  | [] => some []
  | c :: cs =>
    let dfs := groupTables tables c
    if dfs.isEmpty then mergeCats tables teamName teamUrl cityState cs
    else
      match mergeGroup dfs with
      | none => none
      | some m =>
        match mergeCats tables teamName teamUrl cityState cs with
        | none => none
        | some out => some ((c, injectTeamCols m teamName teamUrl cityState) :: out)

/-- `_merge_tables_by_type`: classify and group the tables, merge each
non-empty group, and inject the three team columns. -/
def mergeTablesByType (tables : List DataFrame)
    (teamName teamUrl cityState : PyStr) :
    Option (List (TableType × DataFrame)) :=
  mergeCats tables teamName teamUrl cityState
    [TableType.batting, TableType.pitching, TableType.fielding,
     TableType.baserunning]

/-- The row filter of `_extract_table_data`: a scraped row is kept when
it is non-empty, has more than one cell, and its second cell (the
athlete name) does not contain the substring "season" or "totals" after
lowercasing. -/
def rowKept (cells : List PyStr) : Bool :=
  !cells.isEmpty &&
  (decide (1 < cells.length) &&
    !(decide (pys "season" <:+: pyLower (cells.getD 1 [])) ||
      decide (pys "totals" <:+: pyLower (cells.getD 1 []))))

/-- The column count pandas infers for a list-of-lists: the maximum row
length (shorter rows are padded with NaN). -/
def rowWidth (data : List (List PyStr)) : Nat :=
  data.foldr (fun r m => max r.length m) 0

/-- Pad a scraped row with NaN cells up to the inferred width, as pandas
does when building a DataFrame from a ragged list of lists. -/
def padRow (w : Nat) (cells : List PyStr) : List (Option PyStr) :=
  cells.map some ++ List.replicate (w - cells.length) none

/-- `_extract_table_data` on an already-scraped table (a list of rows of
cell text, row 0 the header row): keep the data rows passing `rowKept`,
and build a DataFrame when both headers and data are present;
`pd.DataFrame(data, columns=headers)` raises (caught, yielding the empty
DataFrame) when the inferred width differs from the header count. -/
def extractTableData (table : List (List PyStr)) : DataFrame :=
  let headers := table.headD []
  let data := (table.drop 1).filter rowKept
  if headers.isEmpty || data.isEmpty then ⟨[], []⟩
  else if rowWidth data = headers.length then
    ⟨headers, data.map (padRow headers.length)⟩
  else ⟨[], []⟩

/-- One line of the `teams_without_stats` failure log, as written by
`_save_team_without_stats`. -/
structure DiagRecord where
  teamName : PyStr
  statsUrl : PyStr
  reason : PyStr
  tablesFound : Nat
deriving DecidableEq

/-- The table-processing core of `process_team`, from the point where
the fetched page's tables are in hand: an empty table list and a table
count below 7 are data-quality failures producing one diagnostic record
and no output; otherwise the tables are extracted, the empty extractions
dropped, and the rest merged by category.  A `KeyError` escaping the
merge is caught by the whole-team handler, which records one diagnostic
whose reason is the formatted exception text (abstracted here as
"Error"). -/
def processTeamTables (tables : List (List (List PyStr)))
    (teamName teamUrl cityState : PyStr) :
    List DiagRecord × List (TableType × DataFrame) :=
  if tables.isEmpty then
    ([⟨teamName, teamUrl, pys "No tables found", 0⟩], [])
  else if tables.length < 7 then
    ([⟨teamName, teamUrl, pys "Insufficient tables", tables.length⟩], [])
  else
    let tableDfs := (tables.map extractTableData).filter
      (fun df => !df.isEmpty)
    match mergeTablesByType tableDfs teamName teamUrl cityState with
    | some merged => ([], merged)
    | none => ([⟨teamName, teamUrl, pys "Error", 0⟩], [])

/-- Modelled from the spec (section 4.2, and the C1 claim text): the
classifier as the specification words it — the four category predicates
evaluated on the set of present trimmed-uppercased headers, in the fixed
order pitching, fielding, baserunning, batting, first match wins, `none`
when no predicate holds. -/
def specPitchingP (present : List PyStr) : Prop :=
  3 ≤ interCount pitchingBasic present ∨
  3 ≤ interCount pitchingAdvanced present ∨
  2 ≤ interCount pitchingAdditional present

/-- Modelled from the spec: the fielding predicate — at least one
required and at least one additional fielding indicator present. -/
def specFieldingP (present : List PyStr) : Prop :=
  (∃ req ∈ fieldingRequired, req ∈ present) ∧
  (∃ add ∈ fieldingAdditional, add ∈ present)

/-- Modelled from the spec: the baserunning predicate — at least one of
SB, CS, SBA present. -/
def specBaserunningP (present : List PyStr) : Prop :=
  ∃ req ∈ baserunningRequired, req ∈ present

/-- Modelled from the spec: the batting predicate — at least 2 required
or at least 2 additional batting indicators present. -/
def specBattingP (present : List PyStr) : Prop :=
  2 ≤ interCount battingRequired present ∨
  2 ≤ interCount battingAdditional present

instance (present : List PyStr) : Decidable (specPitchingP present) := by
  unfold specPitchingP; infer_instance

instance (present : List PyStr) : Decidable (specFieldingP present) := by
  unfold specFieldingP; infer_instance

instance (present : List PyStr) : Decidable (specBaserunningP present) := by
  unfold specBaserunningP; infer_instance

instance (present : List PyStr) : Decidable (specBattingP present) := by
  unfold specBattingP; infer_instance

/-- Modelled from the spec: the priority-ordered classification of the
specification, to be compared with `determineTableType`. -/
def specClassify (cols : List PyStr) : Option TableType :=
  let present := cols.map stripUpper
  if specPitchingP present then some .pitching
  else if specFieldingP present then some .fielding
  else if specBaserunningP present then some .baserunning
  else if specBattingP present then some .batting
  else none

/-- The concrete header set of the C1 example. -/
def pitchingExampleHeaders : List PyStr :=
  [pys "ERA", pys "W", pys "L", pys "IP", pys "H", pys "R", pys "ER",
   pys "BB", pys "SO"]

/-- The concrete table refuting C2: its raw header "Batting Avg" is in
the synonym table (canonical form AVG), yet the merger keeps it as
"BATTING AVG". -/
def c2Table : DataFrame :=
  ⟨[pys "#", pys "ATHLETE NAME", pys "Batting Avg", pys "AB", pys "H"],
   [[some (pys "1"), some (pys "Alice"), some (pys ".300"),
     some (pys "10"), some (pys "3")]]⟩

/-- The C3 example: a table with an AVG column for athletes 1 and 2. -/
def c3TableA : DataFrame :=
  ⟨[pys "#", pys "ATHLETE NAME", pys "AVG"],
   [[some (pys "1"), some (pys "Alice"), some (pys ".300")],
    [some (pys "2"), some (pys "Bob"), some (pys ".250")]]⟩

/-- The C3 example: a table with an ERA column for athletes 2 and 3. -/
def c3TableB : DataFrame :=
  ⟨[pys "#", pys "ATHLETE NAME", pys "ERA"],
   [[some (pys "2"), some (pys "Bob"), some (pys "2.10")],
    [some (pys "3"), some (pys "Carol"), some (pys "3.50")]]⟩

/-- The outer-join result of the C3 example: three athletes, athlete 1
with empty ERA and athlete 3 with empty AVG. -/
def c3Merged : DataFrame :=
  ⟨[pys "#", pys "ATHLETE NAME", pys "AVG", pys "ERA"],
   [[some (pys "1"), some (pys "Alice"), some (pys ".300"), none],
    [some (pys "2"), some (pys "Bob"), some (pys ".250"), some (pys "2.10")],
    [some (pys "3"), some (pys "Carol"), none, some (pys "3.50")]]⟩

/-- C10 example: a base table with both key columns. -/
def c10Base : DataFrame :=
  ⟨[pys "#", pys "ATHLETE NAME", pys "SB"],
   [[some (pys "1"), some (pys "Ana"), some (pys "4")]]⟩

/-- C10 example: a second table with both key columns present. -/
def c10Good : DataFrame :=
  ⟨[pys "#", pys "ATHLETE NAME", pys "CS"],
   [[some (pys "1"), some (pys "Ana"), some (pys "2")]]⟩

/-- C10 example: a classified (baserunning) table that lacks the `#` key
column. -/
def c10Bad : DataFrame :=
  ⟨[pys "ATHLETE NAME", pys "CS"],
   [[some (pys "Ana"), some (pys "2")]]⟩

/-- C6 example input: one baserunning table with two athletes. -/
def c6Input : DataFrame :=
  ⟨[pys "#", pys "ATHLETE NAME", pys "SB"],
   [[some (pys "1"), some (pys "Ana"), some (pys "5")],
    [some (pys "2"), some (pys "Bo"), some (pys "3")]]⟩

/-- C6 example output: the merged baserunning table with the three team
columns injected on every row. -/
def c6Merged : DataFrame :=
  ⟨[pys "#", pys "ATHLETE NAME", pys "SB", pys "TEAM", pys "CITY_STATE",
    pys "STATS_URL"],
   [[some (pys "1"), some (pys "Ana"), some (pys "5"), some (pys "Tigers"),
     some (pys "Springfield, IL"), some (pys "http://x")],
    [some (pys "2"), some (pys "Bo"), some (pys "3"), some (pys "Tigers"),
     some (pys "Springfield, IL"), some (pys "http://x")]]⟩

theorem upperChar_idem (c : Nat) : upperChar (upperChar c) = upperChar c := by
  unfold upperChar
  split
  · split <;> omega
  · rfl

theorem wsB_upperChar (c : Nat) : wsB (upperChar c) = wsB c := by
  unfold wsB upperChar
  split
  · rw [decide_eq_decide]; omega
  · rfl

theorem pyUpper_idem (l : PyStr) : pyUpper (pyUpper l) = pyUpper l := by
  unfold pyUpper
  rw [List.map_map]
  exact List.map_congr_left (fun c _ => upperChar_idem c)

theorem dropWhile_idem {α : Type} (p : α → Bool) (l : List α) :
    List.dropWhile p (List.dropWhile p l) = List.dropWhile p l := by
  induction l with
  | nil => rfl
  | cons c cs ih =>
    by_cases h : p c
    · rw [List.dropWhile_cons_of_pos h, ih]
    · rw [List.dropWhile_cons_of_neg h, List.dropWhile_cons_of_neg h]

theorem dropWhile_map_comm {α : Type} (p : α → Bool) (f : α → α)
    (hf : ∀ c, p (f c) = p c) (l : List α) :
    List.dropWhile p (l.map f) = (List.dropWhile p l).map f := by
  induction l with
  | nil => rfl
  | cons c cs ih =>
    by_cases h : p c
    · have hfc : p (f c) = true := by rw [hf]; exact h
      simp only [List.map_cons, List.dropWhile_cons_of_pos hfc,
        List.dropWhile_cons_of_pos h, ih]
    · have hfc : ¬ p (f c) = true := by rw [hf]; exact h
      simp only [List.map_cons, List.dropWhile_cons_of_neg hfc,
        List.dropWhile_cons_of_neg h]

theorem pc_false_of_dropWhile_cons {α : Type} {p : α → Bool} {c : α}
    {l : List α} (h : List.dropWhile p (c :: l) = c :: l) : p c = false := by
  by_cases hc : p c
  · rw [List.dropWhile_cons_of_pos hc] at h
    have h1 : (List.dropWhile p l).length ≤ l.length :=
      (List.dropWhile_suffix p).sublist.length_le
    have h2 := congrArg List.length h
    simp only [List.length_cons] at h2
    omega
  · simpa using hc

theorem dropWhile_eq_self_of_isPre {α : Type} {p : α → Bool}
    {l l1 : List α} (hl : List.dropWhile p l = l) (hp : l1 <+: l) :
    List.dropWhile p l1 = l1 := by
  cases l1 with
  | nil => rfl
  | cons c t =>
    obtain ⟨s, hs⟩ := hp
    have hlc : l = c :: (t ++ s) := by rw [← hs]; rfl
    rw [hlc] at hl
    have hc : p c = false := pc_false_of_dropWhile_cons hl
    rw [List.dropWhile_cons_of_neg (by simp [hc])]

theorem pyStrip_idem (l : PyStr) : pyStrip (pyStrip l) = pyStrip l := by
  unfold pyStrip
  set A := l.dropWhile wsB with hA
  set B := (A.reverse.dropWhile wsB).reverse with hB
  have hAfix : A.dropWhile wsB = A := by rw [hA]; exact dropWhile_idem wsB l
  have h1 : B.reverse = A.reverse.dropWhile wsB := by
    rw [hB, List.reverse_reverse]
  have hBpre : B <+: A := by
    rw [← List.reverse_suffix, h1]
    exact List.dropWhile_suffix wsB
  have hBfix : B.dropWhile wsB = B := dropWhile_eq_self_of_isPre hAfix hBpre
  rw [hBfix, h1, dropWhile_idem, ← h1, List.reverse_reverse]

theorem pyStrip_pyUpper (l : PyStr) :
    pyStrip (pyUpper l) = pyUpper (pyStrip l) := by
  unfold pyStrip pyUpper
  rw [dropWhile_map_comm wsB upperChar wsB_upperChar, ← List.map_reverse,
    dropWhile_map_comm wsB upperChar wsB_upperChar, ← List.map_reverse]

theorem stripUpper_idem (h : PyStr) :
    stripUpper (stripUpper h) = stripUpper h := by
  unfold stripUpper
  rw [pyStrip_pyUpper, pyStrip_idem, pyUpper_idem]

theorem lookupD_cases (m : List (PyStr × PyStr)) (k d : PyStr) :
    lookupD m k d = d ∨ ∃ kv ∈ m, kv.1 = k ∧ lookupD m k d = kv.2 := by
  induction m with
  | nil => left; rfl
  | cons a rest ih =>
    obtain ⟨a1, a2⟩ := a
    by_cases h : a1 = k
    · right; exact ⟨(a1, a2), by simp, h, by simp [lookupD, h]⟩
    · rcases ih with h1 | ⟨kv, hkv, hk, hv⟩
      · left; simpa [lookupD, h] using h1
      · right; exact ⟨kv, by simp [hkv], hk, by simpa [lookupD, h] using hv⟩

/-- Claim C5: header normalization is idempotent — for every raw header
string, normalizing twice equals normalizing once; and normalizing an
already-canonical header (a value of the synonym table) returns it
unchanged. -/
theorem normalizeHeader_idempotent :
    (∀ h : PyStr, normalizeHeader (normalizeHeader h) = normalizeHeader h) ∧
    (∀ kv ∈ headerMap, normalizeHeader kv.2 = kv.2) := by
  have hvals : ∀ kv ∈ headerMap,
      stripUpper kv.2 = kv.2 ∧ lookupD headerMap kv.2 kv.2 = kv.2 := by decide
  have hmain : ∀ h : PyStr,
      normalizeHeader (normalizeHeader h) = normalizeHeader h := by
    intro h
    unfold normalizeHeader
    rcases lookupD_cases headerMap (stripUpper h) (stripUpper h) with
      hd | ⟨kv, hkv, hk, hv⟩
    · rw [hd, stripUpper_idem, hd]
    · rw [hv, (hvals kv hkv).1, (hvals kv hkv).2]
  refine ⟨hmain, fun kv hkv => ?_⟩
  unfold normalizeHeader
  rw [(hvals kv hkv).1, (hvals kv hkv).2]

/-- Witness for C5 at concrete headers: a raw header with whitespace and
mixed case, and the canonical header ERA. -/
theorem normalizeHeader_idempotent_witness :
    normalizeHeader (normalizeHeader (pys " Batting Avg ")) =
      normalizeHeader (pys " Batting Avg ") ∧
    normalizeHeader (pys "ERA") = pys "ERA" :=
  ⟨normalizeHeader_idempotent.1 (pys " Batting Avg "),
   normalizeHeader_idempotent.2 (pys "EARNED RUN AVERAGE", pys "ERA")
     (by decide)⟩

theorem interCount_congr {h1 h2 : List PyStr}
    (hmem : ∀ x : PyStr, x ∈ h1 ↔ x ∈ h2) (ind : List PyStr) :
    interCount ind h1 = interCount ind h2 := by
  unfold interCount
  congr 1
  exact List.filter_congr
    (fun x _ => by rw [decide_eq_decide]; exact hmem x)

/-- Claim C4: classification is a pure function of the set of headers —
permuting the header sequence never changes the classification. -/
theorem determineTableType_perm (l1 l2 : List PyStr) (hp : l1.Perm l2) :
    determineTableType l1 = determineTableType l2 := by
  have hmp : (l1.map stripUpper).Perm (l2.map stripUpper) := hp.map stripUpper
  have hmem : ∀ x : PyStr, x ∈ l1.map stripUpper ↔ x ∈ l2.map stripUpper :=
    fun x => hmp.mem_iff
  have hic := interCount_congr hmem
  unfold determineTableType
  refine if_congr ?_ rfl (if_congr ?_ rfl (if_congr ?_ rfl
    (if_congr ?_ rfl (if_congr ?_ rfl rfl))))
  · simp only [List.isEmpty_iff_length_eq_zero, hmp.length_eq]
  · rw [hic pitchingBasic, hic pitchingAdvanced, hic pitchingAdditional]
  · simp only [hmem]
  · simp only [hmem]
  · rw [hic battingRequired, hic battingAdditional]

/-- Witness for C4: swapping SB and CS leaves the classification
(baserunning) unchanged. -/
theorem determineTableType_perm_witness :
    ([pys "SB", pys "CS"].Perm [pys "CS", pys "SB"]) ∧
    determineTableType [pys "SB", pys "CS"] =
      determineTableType [pys "CS", pys "SB"] :=
  ⟨by decide, determineTableType_perm _ _ (by decide)⟩

/-- Claim C1: the table classifier agrees everywhere with the
specification's priority-ordered heuristic (pitching, fielding,
baserunning, batting, first predicate that holds on the set of present
trimmed-uppercased headers, `none` otherwise); in particular the header
set ERA, W, L, IP, H, R, ER, BB, SO classifies as pitching and never as
batting. -/
theorem determineTableType_matches_spec :
    (∀ cols : List PyStr, determineTableType cols = specClassify cols) ∧
    determineTableType pitchingExampleHeaders = some TableType.pitching ∧
    determineTableType pitchingExampleHeaders ≠ some TableType.batting := by
  refine ⟨?_, by decide, by decide⟩
  intro cols
  cases cols with
  | nil => decide
  | cons c cs =>
    simp only [determineTableType, specClassify, specPitchingP, specFieldingP,
      specBaserunningP, specBattingP, List.map_cons, List.isEmpty_cons,
      Bool.false_eq_true, if_false]

theorem map_some_append_replicate_inj :
    ∀ (c1 c2 : List PyStr) (a b : Nat),
      c1.map some ++ List.replicate a (none : Option PyStr) =
        c2.map some ++ List.replicate b none → c1 = c2 := by
  intro c1
  induction c1 with
  | nil =>
    intro c2 a b h
    cases c2 with
    | nil => rfl
    | cons y t =>
      exfalso
      cases a with
      | zero => simp at h
      | succ n => simp [List.replicate_succ] at h
  | cons x t ih =>
    intro c2 a b h
    cases c2 with
    | nil =>
      exfalso
      cases b with
      | zero => simp at h
      | succ n => simp [List.replicate_succ] at h
    | cons y t2 =>
      simp only [List.map_cons, List.cons_append, List.cons.injEq,
        Option.some.injEq] at h
      rw [h.1, ih t2 a b h.2]

theorem padRow_inj {w : Nat} {c1 c2 : List PyStr}
    (h : padRow w c1 = padRow w c2) : c1 = c2 :=
  map_some_append_replicate_inj c1 c2 _ _ h

theorem rowKept_props {cells : List PyStr} (h : rowKept cells = true) :
    1 < cells.length ∧
    ¬ (pys "season" <:+: pyLower (cells.getD 1 [])) ∧
    ¬ (pys "totals" <:+: pyLower (cells.getD 1 [])) := by
  unfold rowKept at h
  simp only [Bool.and_eq_true, Bool.not_eq_true', Bool.or_eq_false_iff,
    decide_eq_true_eq, decide_eq_false_iff_not] at h
  exact ⟨h.2.1, h.2.2.1, h.2.2.2⟩

theorem rowKept_eq_false_of_short {cells : List PyStr}
    (h : cells.length < 2) : rowKept cells = false := by
  cases cells with
  | nil => rfl
  | cons a t =>
    have hd : decide (1 < (a :: t).length) = false := by
      simp only [decide_eq_false_iff_not, List.length_cons]
      simp only [List.length_cons] at h
      omega
    unfold rowKept
    rw [hd]
    simp

/-- Claim C7: a data row whose athlete-name cell (second cell) contains
the substring "season" or "totals" after lowercasing never appears in
the extracted table, whatever the rest of the table holds. -/
theorem extract_excludes_season_totals (table : List (List PyStr))
    (cells : List PyStr)
    (hname : pys "season" <:+: pyLower (cells.getD 1 []) ∨
             pys "totals" <:+: pyLower (cells.getD 1 [])) :
    padRow (table.headD []).length cells ∉ (extractTableData table).rows := by
  intro hmem
  simp only [extractTableData] at hmem
  split at hmem
  · simp at hmem
  · split at hmem
    · simp only [List.mem_map] at hmem
      obtain ⟨cells2, hc2, heq⟩ := hmem
      have hceq : cells2 = cells := padRow_inj heq
      rw [List.mem_filter, hceq] at hc2
      have hprops := rowKept_props hc2.2
      rcases hname with hs | ht
      · exact hprops.2.1 hs
      · exact hprops.2.2 ht
    · simp at hmem

/-- Witness for C7: in a concrete table, the rows named "Team Totals"
and "2024 Season" are absent from the extraction output. -/
theorem extract_excludes_season_totals_witness :
    padRow 3 [pys "2", pys "Team Totals", pys ".290"] ∉
      (extractTableData
        [[pys "#", pys "Name", pys "AVG"],
         [pys "1", pys "Alice", pys ".300"],
         [pys "2", pys "Team Totals", pys ".290"],
         [pys "3", pys "2024 Season", pys ".280"]]).rows ∧
    padRow 3 [pys "3", pys "2024 Season", pys ".280"] ∉
      (extractTableData
        [[pys "#", pys "Name", pys "AVG"],
         [pys "1", pys "Alice", pys ".300"],
         [pys "2", pys "Team Totals", pys ".290"],
         [pys "3", pys "2024 Season", pys ".280"]]).rows :=
  ⟨extract_excludes_season_totals _ _ (Or.inr (by decide)),
   extract_excludes_season_totals _ _ (Or.inl (by decide))⟩

/-- Claim C9: extraction silently drops every data row with fewer than
two cells — removing such a row does not change the output at all — and
every extracted row arises from an input data row with at least two
cells. -/
theorem extract_drops_short_rows :
    (∀ (header : List PyStr) (rows1 rows2 : List (List PyStr))
       (cells : List PyStr), cells.length < 2 →
       extractTableData (header :: (rows1 ++ cells :: rows2)) =
         extractTableData (header :: (rows1 ++ rows2))) ∧
    (∀ (table : List (List PyStr)) (r : List (Option PyStr)),
       r ∈ (extractTableData table).rows →
       ∃ cells ∈ table.drop 1, 2 ≤ cells.length ∧
         r = padRow (table.headD []).length cells) := by
  constructor
  · intro header rows1 rows2 cells hlen
    have hk : rowKept cells = false := rowKept_eq_false_of_short hlen
    simp only [extractTableData, List.headD_cons, List.drop_succ_cons,
      List.drop_zero, List.filter_append, List.filter_cons, hk]
    simp
  · intro table r hr
    simp only [extractTableData] at hr
    split at hr
    · simp at hr
    · split at hr
      · simp only [List.mem_map] at hr
        obtain ⟨cells, hc, heq⟩ := hr
        rw [List.mem_filter] at hc
        have hprops := rowKept_props hc.2
        exact ⟨cells, hc.1, by omega, heq.symm⟩
      · simp at hr

/-- Witness for C9: removing a concrete one-cell row leaves the
extraction output unchanged. -/
theorem extract_drops_short_rows_witness :
    extractTableData
      [[pys "#", pys "Name"], [pys "x"], [pys "1", pys "Alice"]] =
    extractTableData [[pys "#", pys "Name"], [pys "1", pys "Alice"]] :=
  extract_drops_short_rows.1 [pys "#", pys "Name"] [] [[pys "1", pys "Alice"]]
    [pys "x"] (by decide)

/-- Claim C8: a team whose page yields at least one but fewer than 7
tables produces no merged output and exactly one diagnostic record with
reason "Insufficient tables" and the actual table count. -/
theorem processTeam_insufficient_tables
    (tables : List (List (List PyStr))) (tn tu cs : PyStr)
    (h1 : tables ≠ []) (h7 : tables.length < 7) :
    processTeamTables tables tn tu cs =
      ([⟨tn, tu, pys "Insufficient tables", tables.length⟩], []) := by
  unfold processTeamTables
  rw [if_neg (by simpa [List.isEmpty_iff] using h1), if_pos h7]

/-- Witness for C8: a team with exactly 5 tables yields the single
"Insufficient tables" diagnostic with count 5 and no output. -/
theorem processTeam_insufficient_tables_witness :
    processTeamTables
      (List.replicate 5 [[pys "#", pys "Name"], [pys "1", pys "A"]])
      (pys "Springfield") (pys "url") (pys "IL") =
      ([⟨pys "Springfield", pys "url", pys "Insufficient tables", 5⟩], []) := by
  have h := processTeam_insufficient_tables
    (List.replicate 5 [[pys "#", pys "Name"], [pys "1", pys "A"]])
    (pys "Springfield") (pys "url") (pys "IL") (by decide) (by decide)
  simpa using h

/-- Counterexample to C2: the merged batting table's columns keep the
trimmed-uppercased raw name "BATTING AVG" and do not contain the
canonical synonym-table image "AVG", although the synonym table maps
"Batting Avg" to "AVG" — so the merger does not pass headers through the
canonical synonym-table normalization. -/
theorem merge_skips_synonym_normalization :
    (mergeTablesByType [c2Table] (pys "Team") (pys "Url") (pys "City")).map
        (List.map (fun p => (p.1, p.2.cols))) =
      some [(TableType.batting,
        [pys "#", pys "ATHLETE NAME", pys "BATTING AVG", pys "AB", pys "H",
         pys "TEAM", pys "CITY_STATE", pys "STATS_URL"])] ∧
    normalizeHeader (pys "Batting Avg") = pys "AVG" ∧
    pys "AVG" ∈ normalizeHeaders c2Table.cols ∧
    pys "AVG" ∉
      [pys "#", pys "ATHLETE NAME", pys "BATTING AVG", pys "AB", pys "H",
       pys "TEAM", pys "CITY_STATE", pys "STATS_URL"] := by
  refine ⟨by decide, by decide, by decide, by decide⟩

/-- Claim C2 (amended): before merging, the merger rewrites every column
name of every grouped table by trimming and uppercasing only — the
synonym table of `_normalize_headers` is not applied — so each table in
a category group is a source table with columns mapped through
`stripUpper`. -/
theorem groupTables_strip_upper_only (tables : List DataFrame)
    (cat : TableType) (df : DataFrame) (hdf : df ∈ groupTables tables cat) :
    ∃ src ∈ tables, src.isEmpty = false ∧
      determineTableType src.cols = some cat ∧
      df.cols = src.cols.map stripUpper ∧ df.rows = src.rows := by
  unfold groupTables at hdf
  simp only [List.mem_map, List.mem_filter, Bool.and_eq_true,
    Bool.not_eq_true', decide_eq_true_eq] at hdf
  obtain ⟨src, ⟨hmem, hne, hcat⟩, heq⟩ := hdf
  exact ⟨src, hmem, hne, hcat, by rw [← heq], by rw [← heq]⟩

/-- Witness for the amended C2 at the concrete table: the grouped form
of `c2Table` has exactly the stripped-uppercased columns. -/
theorem groupTables_strip_upper_only_witness :
    ∃ src ∈ [c2Table], src.isEmpty = false ∧
      determineTableType src.cols = some TableType.batting ∧
      (⟨[pys "#", pys "ATHLETE NAME", pys "BATTING AVG", pys "AB", pys "H"],
        c2Table.rows⟩ : DataFrame).cols = src.cols.map stripUpper ∧
      (⟨[pys "#", pys "ATHLETE NAME", pys "BATTING AVG", pys "AB", pys "H"],
        c2Table.rows⟩ : DataFrame).rows = src.rows :=
  groupTables_strip_upper_only [c2Table] TableType.batting _ (by decide)

theorem colIdx_lt {l : List PyStr} {k : PyStr} {i : Nat}
    (h : colIdx l k = some i) : i < l.length := by
  induction l generalizing i with
  | nil => simp [colIdx] at h
  | cons c cs ih =>
    by_cases hc : c = k
    · simp only [colIdx, if_pos hc, Option.some.injEq] at h
      simp [← h]
    · simp only [colIdx, if_neg hc, Option.map_eq_some'] at h
      obtain ⟨j, hj, hji⟩ := h
      have := ih hj
      simp only [List.length_cons]
      omega

theorem colIdx_getD {l : List PyStr} {k : PyStr} {i : Nat}
    (h : colIdx l k = some i) : l.getD i [] = k := by
  induction l generalizing i with
  | nil => simp [colIdx] at h
  | cons c cs ih =>
    by_cases hc : c = k
    · simp only [colIdx, if_pos hc, Option.some.injEq] at h
      rw [← h]
      simpa using hc
    · simp only [colIdx, if_neg hc, Option.map_eq_some'] at h
      obtain ⟨j, hj, hji⟩ := h
      rw [← hji]
      simpa using ih hj

theorem colIdx_eq_none_iff {l : List PyStr} {k : PyStr} :
    colIdx l k = none ↔ k ∉ l := by
  induction l with
  | nil => simp [colIdx]
  | cons c cs ih =>
    by_cases hc : c = k
    · simp [colIdx, hc]
    · simp only [colIdx, if_neg hc, Option.map_eq_none', ih,
        List.mem_cons, not_or]
      constructor
      · intro h
        exact ⟨fun hk => hc hk.symm, h⟩
      · intro h
        exact h.2

theorem colIdx_append_some {l l2 : List PyStr} {k : PyStr} {i : Nat}
    (h : colIdx l k = some i) : colIdx (l ++ l2) k = some i := by
  induction l generalizing i with
  | nil => simp [colIdx] at h
  | cons c cs ih =>
    by_cases hc : c = k
    · simpa [colIdx, hc] using h
    · simp only [colIdx, if_neg hc, Option.map_eq_some'] at h
      obtain ⟨j, hj, hji⟩ := h
      simp only [List.cons_append, colIdx, if_neg hc, Option.map_eq_some']
      exact ⟨j, ih hj, hji⟩

theorem colIdx_append_right_self {l : List PyStr} {k : PyStr}
    (h : colIdx l k = none) : colIdx (l ++ [k]) k = some l.length := by
  induction l with
  | nil => simp [colIdx]
  | cons c cs ih =>
    by_cases hc : c = k
    · simp [colIdx, hc] at h
    · simp only [colIdx, if_neg hc, Option.map_eq_none'] at h
      simp only [List.cons_append, colIdx, if_neg hc, List.length_cons]
      rw [show cs.append [k] = cs ++ [k] from rfl, ih h]
      rfl

theorem colIdx_append_ne {l : List PyStr} {k c2 : PyStr}
    (h : colIdx l k = none) (hne : k ≠ c2) : colIdx (l ++ [c2]) k = none := by
  induction l with
  | nil => simp [colIdx, Ne.symm hne]
  | cons c cs ih =>
    by_cases hc : c = k
    · simp [colIdx, hc] at h
    · simp only [colIdx, if_neg hc, Option.map_eq_none'] at h
      simp only [List.cons_append, colIdx, if_neg hc, Option.map_eq_none']
      exact ih h

theorem length_updAt {r : List (Option PyStr)} {n : Nat} {v : Option PyStr} :
    (updAt r n v).length = r.length := by
  induction r generalizing n with
  | nil => rfl
  | cons c cs ih =>
    cases n with
    | zero => rfl
    | succ m => simpa [updAt] using ih

theorem cellVal_updAt_self {r : List (Option PyStr)} {n : Nat}
    {v : Option PyStr} (h : n < r.length) : cellVal (updAt r n v) n = v := by
  induction r generalizing n with
  | nil => simp at h
  | cons c cs ih =>
    cases n with
    | zero => rfl
    | succ m => exact ih (by simpa using h)

theorem cellVal_updAt_ne {r : List (Option PyStr)} {n m : Nat}
    {v : Option PyStr} (h : n ≠ m) :
    cellVal (updAt r n v) m = cellVal r m := by
  induction r generalizing n m with
  | nil => rfl
  | cons c cs ih =>
    cases n with
    | zero =>
      cases m with
      | zero => exact absurd rfl h
      | succ m2 => rfl
    | succ n2 =>
      cases m with
      | zero => rfl
      | succ m2 => exact ih (by omega)

theorem cellVal_append_left {r s : List (Option PyStr)} {m : Nat}
    (h : m < r.length) : cellVal (r ++ s) m = cellVal r m := by
  induction r generalizing m with
  | nil => simp at h
  | cons c cs ih =>
    cases m with
    | zero => rfl
    | succ m2 => exact ih (by simpa using h)

theorem cellVal_append_self {r : List (Option PyStr)} {v : Option PyStr} :
    cellVal (r ++ [v]) r.length = v := by
  induction r with
  | nil => rfl
  | cons c cs ih => exact ih

theorem setCol_aligned {df : DataFrame} {c : PyStr} {v : PyStr}
    (h : df.aligned) : (setCol df c v).aligned := by
  unfold DataFrame.aligned
  cases hidx : colIdx df.cols c with
  | some i =>
    simp only [setCol, hidx]
    intro r hr
    simp only [List.mem_map] at hr
    obtain ⟨r0, hr0, heq⟩ := hr
    rw [← heq, length_updAt]
    exact h r0 hr0
  | none =>
    simp only [setCol, hidx]
    intro r hr
    simp only [List.mem_map] at hr
    obtain ⟨r0, hr0, heq⟩ := hr
    rw [← heq]
    simp [h r0 hr0]

theorem setCol_cellAt_self {df : DataFrame} {c : PyStr} {v : PyStr}
    (hal : df.aligned) :
    ∀ r ∈ (setCol df c v).rows, cellAt (setCol df c v) r c = some v := by
  intro r hr
  cases hidx : colIdx df.cols c with
  | some i =>
    simp only [setCol, hidx] at hr ⊢
    simp only [List.mem_map] at hr
    obtain ⟨r0, hr0, heq⟩ := hr
    unfold cellAt
    simp only [hidx]
    rw [← heq]
    exact cellVal_updAt_self (by rw [hal r0 hr0]; exact colIdx_lt hidx)
  | none =>
    simp only [setCol, hidx] at hr ⊢
    simp only [List.mem_map] at hr
    obtain ⟨r0, hr0, heq⟩ := hr
    unfold cellAt
    simp only [colIdx_append_right_self hidx]
    rw [← heq, show df.cols.length = r0.length from (hal r0 hr0).symm]
    exact cellVal_append_self

theorem setCol_cellAt_other {df : DataFrame} {c : PyStr} {v : PyStr}
    {c2 : PyStr} (hne : c2 ≠ c) (hal : df.aligned) :
    ∀ r ∈ (setCol df c v).rows, ∃ r0 ∈ df.rows,
      cellAt (setCol df c v) r c2 = cellAt df r0 c2 := by
  intro r hr
  cases hidx : colIdx df.cols c with
  | some i =>
    simp only [setCol, hidx] at hr ⊢
    simp only [List.mem_map] at hr
    obtain ⟨r0, hr0, heq⟩ := hr
    refine ⟨r0, hr0, ?_⟩
    unfold cellAt
    cases hidx2 : colIdx df.cols c2 with
    | none => simp
    | some j =>
      simp only
      rw [← heq]
      apply cellVal_updAt_ne
      intro hij
      exact hne (by rw [← colIdx_getD hidx2, ← hij, colIdx_getD hidx])
  | none =>
    simp only [setCol, hidx] at hr ⊢
    simp only [List.mem_map] at hr
    obtain ⟨r0, hr0, heq⟩ := hr
    refine ⟨r0, hr0, ?_⟩
    unfold cellAt
    cases hidx2 : colIdx df.cols c2 with
    | none =>
      rw [colIdx_append_ne hidx2 (Ne.symm (fun hcc => hne hcc.symm))]
    | some j =>
      rw [colIdx_append_some hidx2, ← heq]
      exact cellVal_append_left (by rw [hal r0 hr0]; exact colIdx_lt hidx2)

theorem mergeOuter_aligned {left right M : DataFrame}
    (hal : left.aligned) (h : mergeOuter left right = some M) : M.aligned := by
  unfold mergeOuter at h
  split at h
  · injection h with h
    intro r hr
    rw [← h] at hr ⊢
    simp only [List.mem_append] at hr
    have hclen : (mergedColsL left right ++ mergedColsR left right).length =
        left.cols.length + (valueCols right).length := by
      simp [mergedColsL, mergedColsR]
    rcases hr with hm | hro
    · unfold matchedRows at hm
      simp only [List.mem_flatMap] at hm
      obtain ⟨lr, hlr, hin⟩ := hm
      split at hin
      · simp only [List.mem_singleton] at hin
        rw [hin]
        simp [hclen, hal lr hlr]
      · simp only [List.mem_map] at hin
        obtain ⟨rr, hrr, heq⟩ := hin
        rw [← heq]
        simp [hclen, hal lr hlr]
    · unfold rightOnlyRows at hro
      simp only [List.mem_map] at hro
      obtain ⟨rr, hrr, heq⟩ := hro
      rw [← heq]
      simp [hclen]
  · exact absurd h (by simp)

theorem foldl_mergeStep_none (l : List DataFrame) :
    l.foldl mergeStep none = none := by
  induction l with
  | nil => rfl
  | cons x t ih => exact ih

theorem foldl_mergeStep_aligned :
    ∀ (l : List DataFrame) (acc : Option DataFrame) (M : DataFrame),
      (∀ L, acc = some L → L.aligned) →
      l.foldl mergeStep acc = some M → M.aligned := by
  intro l
  induction l with
  | nil =>
    intro acc M hacc h
    exact hacc M h
  | cons x t ih =>
    intro acc M hacc h
    simp only [List.foldl_cons] at h
    refine ih _ _ ?_ h
    intro L hL
    cases acc with
    | none => simp [mergeStep] at hL
    | some left =>
      have hall := hacc left rfl
      simp only [mergeStep] at hL
      split at hL
      · injection hL with h2
        rw [← h2]
        exact hall
      · split at hL
        · exact mergeOuter_aligned hall hL
        · exact absurd hL (by simp)

theorem mem_groupTables {tables : List DataFrame} {cat : TableType}
    {df : DataFrame} (hdf : df ∈ groupTables tables cat) :
    ∃ src ∈ tables, src.isEmpty = false ∧
      determineTableType src.cols = some cat ∧
      df.cols = src.cols.map stripUpper ∧ df.rows = src.rows := by
  unfold groupTables at hdf
  simp only [List.mem_map, List.mem_filter, Bool.and_eq_true,
    Bool.not_eq_true', decide_eq_true_eq] at hdf
  obtain ⟨src, ⟨hmem, hne, hcat⟩, heq⟩ := hdf
  exact ⟨src, hmem, hne, hcat, by rw [← heq], by rw [← heq]⟩

theorem groupTables_aligned {tables : List DataFrame} {cat : TableType}
    (h : ∀ t ∈ tables, t.aligned) :
    ∀ df ∈ groupTables tables cat, df.aligned := by
  intro df hdf
  obtain ⟨src, hsrc, _, _, hcols, hrows⟩ := mem_groupTables hdf
  intro r hr
  rw [hrows] at hr
  rw [hcols, List.length_map]
  exact h src hsrc r hr

theorem mergeGroup_aligned {dfs : List DataFrame} {M : DataFrame}
    (hall : ∀ df ∈ dfs, df.aligned) (h : mergeGroup dfs = some M) :
    M.aligned := by
  cases dfs with
  | nil => simp [mergeGroup] at h
  | cons d rest =>
    refine foldl_mergeStep_aligned rest (some d) M ?_ h
    intro L hL
    injection hL with h2
    rw [← h2]
    exact hall d (by simp)

theorem mem_mergeCats {tables : List DataFrame} {tn tu cs : PyStr}
    {cats : List TableType} {out : List (TableType × DataFrame)}
    {cat : TableType} {df : DataFrame}
    (h : mergeCats tables tn tu cs cats = some out)
    (hmem : (cat, df) ∈ out) :
    ∃ M, groupTables tables cat ≠ [] ∧
      mergeGroup (groupTables tables cat) = some M ∧
      df = injectTeamCols M tn tu cs := by
  induction cats generalizing out with
  | nil =>
    injection h with h2
    rw [← h2] at hmem
    simp at hmem
  | cons c rest ih =>
    simp only [mergeCats] at h
    split at h
    · exact ih h hmem
    · rename_i hne
      cases hmg : mergeGroup (groupTables tables c) with
      | none => rw [hmg] at h; exact absurd h (by simp)
      | some m =>
        rw [hmg] at h
        cases hrec : mergeCats tables tn tu cs rest with
        | none => rw [hrec] at h; exact absurd h (by simp)
        | some out2 =>
          rw [hrec] at h
          injection h with h2
          rw [← h2] at hmem
          rcases List.mem_cons.mp hmem with hhead | htail
          · have hc : cat = c := congrArg Prod.fst hhead
            have hd : df = injectTeamCols m tn tu cs := congrArg Prod.snd hhead
            subst hc
            refine ⟨m, ?_, hmg, hd⟩
            intro hnil
            rw [hnil] at hne
            exact hne rfl
          · exact ih hrec htail

/-- Claim C6: whenever the merger produces an output table for a
category, every row of that table carries the team's name, city/state,
and stats URL verbatim in the TEAM, CITY_STATE and STATS_URL columns. -/
theorem merged_rows_carry_team_info (tables : List DataFrame)
    (tn tu cs : PyStr) (m : List (TableType × DataFrame)) (cat : TableType)
    (df : DataFrame) (hal : ∀ t ∈ tables, t.aligned)
    (hm : mergeTablesByType tables tn tu cs = some m)
    (hmem : (cat, df) ∈ m) :
    ∀ r ∈ df.rows,
      cellAt df r (pys "TEAM") = some tn ∧
      cellAt df r (pys "CITY_STATE") = some cs ∧
      cellAt df r (pys "STATS_URL") = some tu := by
  obtain ⟨M, hne, hmg, hdf⟩ := mem_mergeCats hm hmem
  have hMal : M.aligned := mergeGroup_aligned (groupTables_aligned hal) hmg
  have hM1al : (setCol M (pys "TEAM") tn).aligned := setCol_aligned hMal
  have hM2al :
      (setCol (setCol M (pys "TEAM") tn) (pys "CITY_STATE") cs).aligned :=
    setCol_aligned hM1al
  subst hdf
  intro r hr
  unfold injectTeamCols at hr ⊢
  refine ⟨?_, ?_, ?_⟩
  · obtain ⟨r2, hr2, he2⟩ :=
      setCol_cellAt_other (show pys "TEAM" ≠ pys "STATS_URL" by decide) hM2al r hr
    obtain ⟨r1, hr1, he1⟩ :=
      setCol_cellAt_other (show pys "TEAM" ≠ pys "CITY_STATE" by decide) hM1al r2 hr2
    rw [he2, he1]
    exact setCol_cellAt_self hMal r1 hr1
  · obtain ⟨r2, hr2, he2⟩ :=
      setCol_cellAt_other (show pys "CITY_STATE" ≠ pys "STATS_URL" by decide) hM2al r hr
    rw [he2]
    exact setCol_cellAt_self hM1al r2 hr2
  · exact setCol_cellAt_self hM2al r hr

/-- Witness for C6 at a concrete one-table team: the first row of the
merged baserunning table carries the injected team columns. -/
theorem merged_rows_carry_team_info_witness :
    cellAt c6Merged
      [some (pys "1"), some (pys "Ana"), some (pys "5"), some (pys "Tigers"),
       some (pys "Springfield, IL"), some (pys "http://x")] (pys "TEAM") =
      some (pys "Tigers") ∧
    cellAt c6Merged
      [some (pys "1"), some (pys "Ana"), some (pys "5"), some (pys "Tigers"),
       some (pys "Springfield, IL"), some (pys "http://x")]
      (pys "CITY_STATE") = some (pys "Springfield, IL") ∧
    cellAt c6Merged
      [some (pys "1"), some (pys "Ana"), some (pys "5"), some (pys "Tigers"),
       some (pys "Springfield, IL"), some (pys "http://x")]
      (pys "STATS_URL") = some (pys "http://x") :=
  merged_rows_carry_team_info [c6Input] (pys "Tigers") (pys "http://x")
    (pys "Springfield, IL") [(TableType.baserunning, c6Merged)]
    TableType.baserunning c6Merged (by decide) (by decide) (by decide)
    [some (pys "1"), some (pys "Ana"), some (pys "5"), some (pys "Tigers"),
     some (pys "Springfield, IL"), some (pys "http://x")] (by decide)

/-- Claim C3: the category-group merge is an outer join on the key
(`#`, ATHLETE NAME): a left row with no key match appears with the right
value columns empty, a matching pair appears combined, and a right row
with no key match appears with the left non-key columns empty. -/
theorem mergeGroup_outer_join (A B M : DataFrame)
    (hBval : ∃ c ∈ B.cols, c ∉ keyColumns)
    (hM : mergeGroup [A, B] = some M) :
    (∀ lr ∈ A.rows, (∀ rr ∈ B.rows, keyOf B rr ≠ keyOf A lr) →
       lr ++ List.replicate (valueCols B).length none ∈ M.rows) ∧
    (∀ lr ∈ A.rows, ∀ rr ∈ B.rows, keyOf B rr = keyOf A lr →
       lr ++ (valueCols B).map (fun c => cellAt B rr c) ∈ M.rows) ∧
    (∀ rr ∈ B.rows, (∀ lr ∈ A.rows, keyOf A lr ≠ keyOf B rr) →
       (A.cols.map (fun c => if c ∈ keyColumns then cellAt B rr c else none) ++
        (valueCols B).map (fun c => cellAt B rr c)) ∈ M.rows) := by
  simp only [mergeGroup, List.foldl_cons, List.foldl_nil] at hM
  simp only [mergeStep] at hM
  split at hM
  · rename_i hemp
    exfalso
    obtain ⟨c, hc, hck⟩ := hBval
    have : c ∈ valueCols B := by
      unfold valueCols
      rw [List.mem_filter]
      exact ⟨hc, by simpa using hck⟩
    rw [List.isEmpty_iff] at hemp
    rw [hemp] at this
    simp at this
  · split at hM
    · unfold mergeOuter at hM
      split at hM
      · injection hM with hM
        refine ⟨?_, ?_, ?_⟩
        · intro lr hlr hnomatch
          rw [← hM]
          simp only [List.mem_append]
          left
          unfold matchedRows
          simp only [List.mem_flatMap]
          refine ⟨lr, hlr, ?_⟩
          have hempty : (matchesOf A B lr).isEmpty = true := by
            unfold matchesOf
            simp only [List.isEmpty_iff, List.filter_eq_nil_iff]
            intro rr hrr
            simpa using hnomatch rr hrr
          rw [if_pos hempty]
          simp
        · intro lr hlr rr hrr hmatch
          rw [← hM]
          simp only [List.mem_append]
          left
          unfold matchedRows
          simp only [List.mem_flatMap]
          refine ⟨lr, hlr, ?_⟩
          have hmem : rr ∈ matchesOf A B lr := by
            unfold matchesOf
            rw [List.mem_filter]
            exact ⟨hrr, by simpa using hmatch⟩
          have hne : (matchesOf A B lr).isEmpty = false := by
            cases hcase : matchesOf A B lr with
            | nil => rw [hcase] at hmem; simp at hmem
            | cons a t => rfl
          rw [hne]
          simp only [Bool.false_eq_true, if_false, List.mem_map]
          exact ⟨rr, hmem, rfl⟩
        · intro rr hrr hnomatch
          rw [← hM]
          simp only [List.mem_append]
          right
          unfold rightOnlyRows
          simp only [List.mem_map]
          refine ⟨rr, ?_, rfl⟩
          rw [List.mem_filter]
          refine ⟨hrr, ?_⟩
          simp only [Bool.not_eq_eq_eq_not, Bool.not_true, List.any_eq_false]
          intro lr hlr
          simpa using hnomatch lr hlr
      · exact absurd hM (by simp)
    · exact absurd hM (by simp)

/-- Witness for C3 at the spec's concrete example: merging the AVG table
for athletes 1, 2 with the ERA table for athletes 2, 3 yields 3 rows;
athlete 1 appears with empty ERA and athlete 3 with empty AVG. -/
theorem mergeGroup_outer_join_witness :
    mergeGroup [c3TableA, c3TableB] = some c3Merged ∧
    c3Merged.rows.length = 3 ∧
    [some (pys "1"), some (pys "Alice"), some (pys ".300"),
      (none : Option PyStr)] ∈ c3Merged.rows ∧
    [some (pys "3"), some (pys "Carol"), (none : Option PyStr),
      some (pys "3.50")] ∈ c3Merged.rows := by
  have h := mergeGroup_outer_join c3TableA c3TableB c3Merged (by decide)
    (by decide)
  refine ⟨by decide, by decide, ?_, ?_⟩
  · exact h.1 [some (pys "1"), some (pys "Alice"), some (pys ".300")]
      (by decide) (by decide)
  · exact h.2.2 [some (pys "3"), some (pys "Carol"), some (pys "3.50")]
      (by decide) (by decide)

theorem exists_mem_of_interCount_pos {ind headers : List PyStr}
    (h : 1 ≤ interCount ind headers) : ∃ x ∈ ind, x ∈ headers := by
  unfold interCount at h
  cases hcase : ind.filter (fun x => decide (x ∈ headers)) with
  | nil => rw [hcase] at h; simp at h
  | cons a t =>
    have ha : a ∈ ind.filter (fun x => decide (x ∈ headers)) := by
      rw [hcase]; simp
    rw [List.mem_filter] at ha
    exact ⟨a, ha.1, by simpa using ha.2⟩

theorem classified_has_nonkey {cols : List PyStr} {cat : TableType}
    (h : determineTableType cols = some cat) :
    ∃ y ∈ cols, y ∉ keyColumns := by
  have hind : ∃ x,
      x ∈ pitchingBasic ++ pitchingAdvanced ++ pitchingAdditional ++
        fieldingRequired ++ fieldingAdditional ++ baserunningRequired ++
        battingRequired ++ battingAdditional ∧
      x ∈ cols.map stripUpper := by
    simp only [determineTableType] at h
    split at h
    · exact absurd h (by simp)
    · split at h
      · rename_i hcond
        rcases hcond with h1 | h1 | h1
        · obtain ⟨x, hx1, hx2⟩ :=
            exists_mem_of_interCount_pos (le_trans (by omega) h1)
          exact ⟨x, by simp [hx1], hx2⟩
        · obtain ⟨x, hx1, hx2⟩ :=
            exists_mem_of_interCount_pos (le_trans (by omega) h1)
          exact ⟨x, by simp [hx1], hx2⟩
        · obtain ⟨x, hx1, hx2⟩ :=
            exists_mem_of_interCount_pos (le_trans (by omega) h1)
          exact ⟨x, by simp [hx1], hx2⟩
      · split at h
        · rename_i hcond
          obtain ⟨⟨x, hx1, hx2⟩, _⟩ := hcond
          exact ⟨x, by simp [hx1], hx2⟩
        · split at h
          · rename_i hcond
            obtain ⟨x, hx1, hx2⟩ := hcond
            exact ⟨x, by simp [hx1], hx2⟩
          · split at h
            · rename_i hcond
              rcases hcond with h1 | h1
              · obtain ⟨x, hx1, hx2⟩ :=
                  exists_mem_of_interCount_pos (le_trans (by omega) h1)
                exact ⟨x, by simp [hx1], hx2⟩
              · obtain ⟨x, hx1, hx2⟩ :=
                  exists_mem_of_interCount_pos (le_trans (by omega) h1)
                exact ⟨x, by simp [hx1], hx2⟩
            · exact absurd h (by simp)
  obtain ⟨x, hxind, hxmem⟩ := hind
  rw [List.mem_map] at hxmem
  obtain ⟨y, hy, hsy⟩ := hxmem
  refine ⟨y, hy, ?_⟩
  intro hyk
  have hxkeys : x ∉ keyColumns := by
    have hall : ∀ z ∈ pitchingBasic ++ pitchingAdvanced ++
        pitchingAdditional ++ fieldingRequired ++ fieldingAdditional ++
        baserunningRequired ++ battingRequired ++ battingAdditional,
        z ∉ keyColumns := by decide
    exact hall x hxind
  have hfix : stripUpper y = y := by
    have : y = pys "#" ∨ y = pys "ATHLETE NAME" := by
      simpa [keyColumns] using hyk
    rcases this with rfl | rfl <;> decide
  rw [hfix] at hsy
  rw [hsy] at hyk
  exact hxkeys hyk

theorem mergeStep_none_of_missing_key {x : DataFrame}
    (hval : ∃ c ∈ x.cols, c ∉ keyColumns)
    (hmiss : ∃ k ∈ keyColumns, k ∉ x.cols) :
    ∀ a : DataFrame, mergeStep (some a) x = none := by
  intro a
  have hvne : (valueCols x).isEmpty = false := by
    obtain ⟨c, hc, hck⟩ := hval
    have hcv : c ∈ valueCols x := by
      unfold valueCols
      rw [List.mem_filter]
      exact ⟨hc, by simpa using hck⟩
    cases hcase : valueCols x with
    | nil => rw [hcase] at hcv; simp at hcv
    | cons a2 t => rfl
  have hkall : (keyColumns.all fun k => decide (k ∈ x.cols)) = false := by
    obtain ⟨k, hk, hkm⟩ := hmiss
    by_contra hcon
    rw [Bool.not_eq_false, List.all_eq_true] at hcon
    exact hkm (by simpa using hcon k hk)
  simp only [mergeStep, hvne, Bool.false_eq_true, if_false, hkall]

theorem foldl_mergeStep_eq_none {l : List DataFrame} {x : DataFrame}
    (hx : x ∈ l) (hbad : ∀ a : DataFrame, mergeStep (some a) x = none) :
    ∀ acc, l.foldl mergeStep acc = none := by
  induction l with
  | nil => simp at hx
  | cons y t ih =>
    intro acc
    simp only [List.foldl_cons]
    rcases List.mem_cons.mp hx with rfl | hxt
    · cases acc with
      | none => exact foldl_mergeStep_none t
      | some a =>
        rw [hbad a]
        exact foldl_mergeStep_none t
    · exact ih hxt (mergeStep acc y)

theorem mergeOuter_keys_subset {left right M : DataFrame}
    (h : mergeOuter left right = some M)
    (hk : ∀ k ∈ keyColumns, k ∈ left.cols) :
    ∀ k ∈ keyColumns, k ∈ M.cols := by
  unfold mergeOuter at h
  split at h
  · injection h with h
    intro k hkk
    rw [← h]
    simp only [List.mem_append]
    left
    unfold mergedColsL
    rw [List.mem_map]
    refine ⟨k, hk k hkk, if_neg ?_⟩
    intro hov
    unfold overlapCols at hov
    rw [List.mem_filter] at hov
    have h2 := hov.2
    simp only [decide_eq_true_eq] at h2
    unfold valueCols at h2
    rw [List.mem_filter] at h2
    have h3 := h2.2
    simp only [decide_eq_true_eq] at h3
    exact h3 hkk
  · exact absurd h (by simp)

theorem foldl_mergeStep_isSome (l : List DataFrame) :
    ∀ left : DataFrame, (∀ k ∈ keyColumns, k ∈ left.cols) →
      (∀ df ∈ l, ∀ k ∈ keyColumns, k ∈ df.cols) →
      (l.foldl mergeStep (some left)).isSome := by
  induction l with
  | nil =>
    intro left _ _
    rfl
  | cons x t ih =>
    intro left hleft hall
    simp only [List.foldl_cons]
    have hx := hall x (by simp)
    have hguard : ((keyColumns.all fun k => decide (k ∈ left.cols)) &&
        (keyColumns.all fun k => decide (k ∈ x.cols))) = true := by
      simp only [Bool.and_eq_true, List.all_eq_true, decide_eq_true_eq]
      exact ⟨hleft, hx⟩
    have hmo : mergeOuter left x = some ⟨mergedColsL left x ++ mergedColsR left x,
        matchedRows left x ++ rightOnlyRows left x⟩ := by
      unfold mergeOuter
      rw [if_pos hguard]
    obtain ⟨M, hM, hMk⟩ : ∃ M, mergeStep (some left) x = some M ∧
        ∀ k ∈ keyColumns, k ∈ M.cols := by
      simp only [mergeStep]
      split
      · exact ⟨left, rfl, hleft⟩
      · rw [if_pos (by simp only [List.all_eq_true, decide_eq_true_eq]; exact hx)]
        exact ⟨_, hmo, mergeOuter_keys_subset hmo hleft⟩
    rw [hM]
    exact ih M hMk (fun df hdf => hall df (by simp [hdf]))

/-- Claim C10: merging a category group presupposes the key columns `#`
and ATHLETE NAME: when every table has both keys the merge loop
succeeds, and when any subsequent (classified) table lacks a key the
merge raises (`none`) instead of producing a table. -/
theorem mergeGroup_key_columns (d : DataFrame) (rest : List DataFrame) :
    ((∀ df ∈ d :: rest, ∀ k ∈ keyColumns, k ∈ df.cols) →
      (mergeGroup (d :: rest)).isSome) ∧
    ((∀ df ∈ rest, (determineTableType df.cols).isSome) →
      (∃ df ∈ rest, ∃ k ∈ keyColumns, k ∉ df.cols) →
      mergeGroup (d :: rest) = none) := by
  constructor
  · intro hall
    unfold mergeGroup
    exact foldl_mergeStep_isSome rest d (hall d (by simp))
      (fun df hdf => hall df (by simp [hdf]))
  · intro hcls hbad
    obtain ⟨df, hdf, k, hk, hkmiss⟩ := hbad
    obtain ⟨cat, hcat⟩ := Option.isSome_iff_exists.mp (hcls df hdf)
    have hval := classified_has_nonkey hcat
    unfold mergeGroup
    exact foldl_mergeStep_eq_none hdf
      (mergeStep_none_of_missing_key hval ⟨k, hk, hkmiss⟩) (some d)

/-- Witness for C10: with both keys everywhere the two-table group
merges; replacing the second table by one lacking `#` makes the merge
raise. -/
theorem mergeGroup_key_columns_witness :
    (mergeGroup [c10Base, c10Good]).isSome ∧
    mergeGroup [c10Base, c10Bad] = none :=
  ⟨(mergeGroup_key_columns c10Base [c10Good]).1 (by decide),
   (mergeGroup_key_columns c10Base [c10Bad]).2 (by decide) (by decide)⟩
